import Mathlib

/-!
# Verification of the tradebot order lifecycle and ledger engine

A shallow embedding of the order-management core of the `tradebot`
repository (`src/trading.py` and `src/data_manager.py`), together with
theorems settling the specification claims about it.

Modelling conventions:

* Python strings are embedded as `List Char` (`Str`); `str s` converts a
  Lean string literal to that representation.
* Python floats are embedded as exact rationals `ℚ`.  Python's `round(x, n)`
  is embedded as `rnd n x`, rounding to the nearest multiple of `10⁻ⁿ` with
  ties going to the even choice, which is the documented behaviour of
  Python's `round`.  This idealization is exact for the program's control
  flow and for arithmetic that IEEE doubles carry out exactly; a decimal
  rounding decided by a sub-half-cent gap between a double and the exact
  rational value (in particular an exact half-cent tie, which no double
  ever is) lies outside the model's fidelity, and no theorem here rests on
  such a point.
* Python dicts holding the order / position / balances records are embedded
  as structures with one field per key; keys that are only added on a state
  transition (`executed_at`, `cancelled_at`) are `Option` fields.
* `datetime.now()` timestamps are passed in as an explicit `now` argument;
  their values never influence control flow in the embedded code.
* The sentiment-advisor call in `buy` is omitted: the source wraps it in a
  bare `try/except` that swallows every failure, so it can affect neither
  control flow nor ledger state, only the returned message text.
-/

/-- Python strings are modelled as lists of characters. -/
abbrev Str := List Char

/-- Convert a Lean string literal to the model's string type. -/
def str (s : String) : Str := s.data

/-- Model of Python's `str.upper` (ASCII letters; the ids and symbols the
program manipulates are ASCII). -/
def upperStr (s : Str) : Str := s.map Char.toUpper

/-- Round-half-to-even of a rational to an integer (the rounding mode of
Python's `round`). -/
def rhe (x : ℚ) : ℤ :=
  let f : ℤ := ⌊x⌋
  let r : ℚ := x - f
  if r < 1/2 then f
  else if 1/2 < r then f + 1
  else if f % 2 = 0 then f else f + 1

/-- Model of Python's `round(x, n)` for `n ≥ 0` decimal digits. -/
def rnd (n : ℕ) (x : ℚ) : ℚ := (rhe (x * 10 ^ n) : ℚ) / 10 ^ n

/-- The property that `x` is an exact decimal with at most `n` fractional
digits. -/
def IsDec (n : ℕ) (x : ℚ) : Prop := ∃ m : ℤ, x = (m : ℚ) / 10 ^ n

/-! ## Decimal digit strings

Machinery for the order-id scheme `"ORD" + digits` of
`data_manager.next_order_id`. -/

/-- The decimal digit character for `d % 10`. -/
def digitChar : ℕ → Char
  | 0 => '0' | 1 => '1' | 2 => '2' | 3 => '3' | 4 => '4'
  | 5 => '5' | 6 => '6' | 7 => '7' | 8 => '8' | _ => '9'

/-- Decimal digit string of a natural number (most significant first),
as produced by Python's `"%d"` formatting. -/
def natToDigits (n : ℕ) : List Char :=
  if _h : n < 10 then [digitChar n]
  else natToDigits (n / 10) ++ [digitChar (n % 10)]
  decreasing_by exact Nat.div_lt_self (by omega) (by omega)

/-- Numeric value of a digit string (the string is assumed to be all
digits; `digitsVal` is the fold `int` performs on such a string). -/
def digitsVal (l : List Char) : ℕ :=
  l.foldl (fun a c => 10 * a + (c.toNat - 48)) 0

/-- Python's `f"{n:03d}"`: decimal digits, zero-padded on the left to at
least three characters. -/
def pad3 (n : ℕ) : List Char :=
  List.replicate (3 - (natToDigits n).length) '0' ++ natToDigits n

/-- Python's `s.replace("ORD", "")`: delete the non-overlapping occurrences
of `"ORD"`, scanning left to right. -/
def stripORD : List Char → List Char
  | [] => []
  | [c] => [c]
  | [c1, c2] => [c1, c2]
  | c1 :: c2 :: c3 :: r =>
    if c1 = 'O' ∧ c2 = 'R' ∧ c3 = 'D' then stripORD r
    else c1 :: stripORD (c2 :: c3 :: r)

/-- Strip leading and trailing whitespace (`int(s)` accepts it). -/
def trimWs (l : List Char) : List Char :=
  ((l.dropWhile Char.isWhitespace).reverse.dropWhile Char.isWhitespace).reverse

/-- The numeric value of a nonempty all-digit string, if it is one. -/
def digitsVal? (l : List Char) : Option ℕ :=
  if l ≠ [] ∧ ∀ c ∈ l, c.isDigit then some (digitsVal l) else none

/-- Model of Python's `int(s)` on strings: optional surrounding whitespace,
an optional sign, then decimal digits; anything else raises `ValueError`
(`none`).  (Underscore digit separators are not modelled; no input in this
development contains them.) -/
def parsePyInt (l : List Char) : Option ℤ :=
  match trimWs l with
  | [] => none
  | c :: r =>
    if c = '-' then (digitsVal? r).map (fun (n : ℕ) => -(n : ℤ))
    else if c = '+' then (digitsVal? r).map (fun (n : ℕ) => (n : ℤ))
    else (digitsVal? (c :: r)).map (fun (n : ℕ) => (n : ℤ))

/-- The number `int(id.replace("ORD", ""))` extracted from an order id, or
`none` where the `int` call raises `ValueError`. -/
def idNum (id : Str) : Option ℤ := parsePyInt (stripORD id)

/-! ## Data model

The three JSON records of the ledger (`balances.json`, `positions.json`,
`orders.json`) and the order record created by `trading.buy` /
`trading.sell`. -/

/-- The record stored in `balances.json`: cash, non_cash, total,
last_updated. -/
structure Balances where
  cash : ℚ
  non_cash : ℚ
  total : ℚ
  last_updated : Str
deriving DecidableEq

/-- One entry of `positions.json`. -/
structure Position where
  symbol : Str
  name : Str
  type : Str
  quantity : ℚ
  avg_cost : ℚ
  current_price : ℚ
deriving DecidableEq

/-- One entry of `orders.json`.  The `executed_at` / `cancelled_at` keys
are only added to the dict on the corresponding transition, hence
`Option`. -/
structure Order where
  id : Str
  symbol : Str
  type : Str
  action : Str
  quantity : ℚ
  price : ℚ
  total : ℚ
  status : Str
  created_at : Str
  executed_at : Option Str := none
  cancelled_at : Option Str := none
deriving DecidableEq

/-- The whole persisted ledger: the three data files. -/
structure LedgerState where
  orders : List Order
  positions : List Position
  balances : Balances
deriving DecidableEq

/-! ## data_manager.py -/

/-- The fold inside `data_manager.next_order_id`: start from `0`, and for
each order whose `int(o["id"].replace("ORD", ""))` parses, keep the
maximum. -/
def maxOrdNum (orders : List Order) : ℤ :=
  orders.foldl
    (fun m o => match idNum o.id with
      | some num => if num > m then num else m
      | none => m)
    0

/-- Source translation of `data_manager.next_order_id`. -/
def next_order_id (orders : List Order) : Str :=
  str "ORD" ++ pad3 (maxOrdNum orders + 1).toNat

/-- The numeric suffix of an id conforming to the specification's
`"ORD" + digits` pattern, `none` for a non-conforming id.  Part of the
specification's description of `NextOrderID`, stated only to be compared
with the source's `next_order_id`. -/
def specConformNum (o : Order) : Option ℕ :=
  match o.id with
  | 'O' :: 'R' :: 'D' :: ds =>
    if ds ≠ [] ∧ ∀ c ∈ ds, c.isDigit then some (digitsVal ds) else none
  | _ => none

/-- The highest conforming numeric suffix, per the specification. -/
def specMaxNum (orders : List Order) : ℕ :=
  orders.foldl
    (fun m o => match specConformNum o with
      | some num => max m num
      | none => m)
    0

/-- The id allocator as the specification describes it (`NextOrderID`
"scans existing orders for the highest numeric suffix of the
`"ORD" + digits` pattern, ignoring non-conforming ids, and returns the
next integer zero-padded to 3 digits").  Stated here only to be compared
with the source's `next_order_id`. -/
def specNextOrderId (orders : List Order) : Str :=
  str "ORD" ++ pad3 (specMaxNum orders + 1)

/-! ## trading.py -/

/-- Source translation of `trading.CRYPTO_SYMBOLS`. -/
def CRYPTO_SYMBOLS : List Str :=
  [str "BTC", str "ETH", str "SOL", str "ADA", str "DOGE", str "XRP",
   str "DOT", str "AVAX", str "MATIC", str "LINK", str "SHIB"]

/-- Source translation of `trading._asset_type`. -/
def _asset_type (symbol : Str) : Str :=
  if upperStr symbol ∈ CRYPTO_SYMBOLS then str "crypto" else str "stock"

/-- The lookup `next(o for o in orders if o["id"] == order_id, None)`. -/
def findOrder (orders : List Order) (order_id : Str) : Option Order :=
  orders.find? (fun o => o.id = order_id)

/-- The lookup `next(p for p in positions if p["symbol"] == symbol, None)`. -/
def findPos (positions : List Position) (symbol : Str) : Option Position :=
  positions.find? (fun p => p.symbol = symbol)

/-- In-place mutation of the first element satisfying `p` (CPython mutates
the dict found by `next(...)`, which is the first match in the list). -/
def updateFirst {α : Type} (p : α → Bool) (f : α → α) : List α → List α
  | [] => []
  | a :: rest => if p a then f a :: rest else a :: updateFirst p f rest

/-- Mutate the first order with the given id. -/
def updateOrder (orders : List Order) (order_id : Str) (f : Order → Order) :
    List Order :=
  updateFirst (fun o => o.id = order_id) f orders

/-- Mutate the first position with the given symbol. -/
def updatePos (positions : List Position) (symbol : Str) (f : Position → Position) :
    List Position :=
  updateFirst (fun p => p.symbol = symbol) f positions

/-- The sum `sum(p["quantity"] * p["current_price"] for p in positions)`. -/
def nonCashSum (positions : List Position) : ℚ :=
  (positions.map (fun p => p.quantity * p.current_price)).sum

/-- Result of `trading.buy` (the source returns these outcomes as message
strings; the error taxonomy names are from the specification). -/
inductive BuyResult
  | quoteUnavailable
  | insufficientCash
  | placed (order_id : Str)
deriving DecidableEq

/-- The order dict `trading.buy` appends on success (`symbol` is the
already-uppercased symbol, as at that point of the source). -/
def mkBuyOrder (order_id symbol : Str) (quantity price total : ℚ) (now : Str) :
    Order :=
  { id := order_id
    symbol := symbol
    type := _asset_type symbol
    action := str "buy"
    quantity := quantity
    price := price
    total := total
    status := str "open"
    created_at := now }

/-- Source translation of `trading.buy`.  The quote-source reply is the
`quote` argument
(`none` models `q["price"] is None`); `now` is the placement timestamp. -/
def buy (s : LedgerState) (symbol : Str) (quantity : ℚ) (quote : Option ℚ)
    (now : Str) : BuyResult × LedgerState :=
  let symbolU := upperStr symbol
  match quote with
  | none => (.quoteUnavailable, s)
  | some price =>
    let total_cost := rnd 2 (price * quantity)
    if total_cost > s.balances.cash then (.insufficientCash, s)
    else
      let order_id := next_order_id s.orders
      let order := mkBuyOrder order_id symbolU quantity price total_cost now
      (.placed order_id, { s with orders := s.orders ++ [order] })

/-- Result of `trading.cancel_order`. -/
inductive CancelResult
  | notFound
  | invalidState (current : Str)
  | cancelled
deriving DecidableEq

/-- Source translation of `trading.cancel_order`. -/
def cancel_order (s : LedgerState) (order_id : Str) (now : Str) :
    CancelResult × LedgerState :=
  let oid := upperStr order_id
  match findOrder s.orders oid with
  | none => (.notFound, s)
  | some o =>
    if o.status ≠ str "open" then (.invalidState o.status, s)
    else
      (.cancelled,
        { s with
          orders := updateOrder s.orders oid
            (fun o => { o with status := str "cancelled", cancelled_at := some now }) })

/-- The notifications `_notify` can emit during `_execute_order`. -/
inductive ExecNote
  | execFailed (order_id : Str)
  | execOk (order_id : Str)
deriving DecidableEq

/-- Mark an order cancelled (`order["status"] = "cancelled"`;
`order["cancelled_at"] = now`). -/
def markCancelled (now : Str) (o : Order) : Order :=
  { o with status := str "cancelled", cancelled_at := some now }

/-- Mark an order executed. -/
def markExecuted (now : Str) (o : Order) : Order :=
  { o with status := str "executed", executed_at := some now }

/-- The tail of `_execute_order` from the `# Recalculate totals` comment on:
recompute `non_cash` and `total`, stamp the order executed, save all three
files (replacing the whole store), and emit the success notification. -/
def commitExecution (orders : List Order) (positions : List Position)
    (balances : Balances) (order_id now : Str) :
    LedgerState × List ExecNote :=
  let non_cash := nonCashSum positions
  let balances' : Balances :=
    { cash := balances.cash
      non_cash := rnd 2 non_cash
      total := rnd 2 (balances.cash + non_cash)
      last_updated := now }
  let orders' := updateOrder orders order_id (markExecuted now)
  (⟨orders', positions, balances'⟩, [.execOk order_id])

/-- The body of `trading._execute_order`, with the three `data_manager`
loads made explicit: `orders`, `balances` and `positions` are the snapshots
the loads returned, and `store` is the ledger the saves overwrite.  When
run atomically the snapshots are the store itself (`_execute_order` below);
keeping them separate also expresses interleavings in which another
operation commits between this task's loads and its saves.

The result is `none` where Python raises an uncaught `ZeroDivisionError`
(the `avg_cost` division when the updated quantity rounds to `0`); the
saves all come after that point, so the store is unchanged in that case. -/
def execFromSnapshot (store : LedgerState) (orders : List Order)
    (balances : Balances) (positions : List Position) (order_id now : Str) :
    Option (LedgerState × List ExecNote) :=
  match findOrder orders order_id with
  | none => some (store, [])
  | some o =>
    if o.status ≠ str "open" then some (store, [])
    else if o.action = str "buy" then
      if o.total > balances.cash then
        some ({ store with orders := updateOrder orders order_id (markCancelled now) },
          [.execFailed order_id])
      else
        let balances' := { balances with cash := rnd 2 (balances.cash - o.total) }
        match findPos positions o.symbol with
        | some pos =>
          let old_total := pos.quantity * pos.avg_cost
          let new_total := o.quantity * o.price
          let q' := rnd 8 (pos.quantity + o.quantity)
          if q' = 0 then none
          else
            let positions' := updatePos positions o.symbol (fun p =>
              { p with
                quantity := q'
                avg_cost := rnd 4 ((old_total + new_total) / q')
                current_price := o.price })
            some (commitExecution orders positions' balances' order_id now)
        | none =>
          let positions' := positions ++
            [{ symbol := o.symbol
               name := o.symbol
               type := o.type
               quantity := o.quantity
               avg_cost := o.price
               current_price := o.price }]
          some (commitExecution orders positions' balances' order_id now)
    else if o.action = str "sell" then
      match findPos positions o.symbol with
      | none =>
        some ({ store with orders := updateOrder orders order_id (markCancelled now) },
          [.execFailed order_id])
      | some pos =>
        if o.quantity > pos.quantity then
          some ({ store with orders := updateOrder orders order_id (markCancelled now) },
            [.execFailed order_id])
        else
          let balances' := { balances with cash := rnd 2 (balances.cash + o.total) }
          let q' := rnd 8 (pos.quantity - o.quantity)
          let positions1 := updatePos positions o.symbol (fun p =>
            { p with quantity := q', current_price := o.price })
          let positions' :=
            if q' ≤ 0 then positions1.filter (fun p => p.symbol ≠ o.symbol)
            else positions1
          some (commitExecution orders positions' balances' order_id now)
    else
      -- an action other than "buy"/"sell" falls through both `if` branches
      -- straight to the recalculation block
      some (commitExecution orders positions balances order_id now)

/-- Source translation of `trading._execute_order`, run with no
interleaved operation: the
snapshots it loads are the current store. -/
def _execute_order (s : LedgerState) (order_id now : Str) :
    Option (LedgerState × List ExecNote) :=
  execFromSnapshot s s.orders s.balances s.positions order_id now

/-- The cancel/execute race that the per-file lock of `data_manager` does
not prevent: the execution task performs its three loads, then a
`cancel_order` call runs to completion, then the execution task carries on
from its (now stale) snapshots and performs its saves. -/
def raceCancelExecute (s : LedgerState) (order_id : Str) (nowC nowE : Str) :
    CancelResult × Option (LedgerState × List ExecNote) :=
  let snapOrders := s.orders
  let snapBalances := s.balances
  let snapPositions := s.positions
  let (cres, s1) := cancel_order s order_id nowC
  (cres, execFromSnapshot s1 snapOrders snapBalances snapPositions order_id nowE)

/-- An open sell order for the whole AAPL holding. -/
def oW3 : Order :=
  { id := str "ORD001", symbol := str "AAPL", type := str "stock",
    action := str "sell", quantity := 5, price := 3, total := 15,
    status := str "open", created_at := str "T" }

def pW3 : Position :=
  { symbol := str "AAPL", name := str "AAPL", type := str "stock",
    quantity := 5, avg_cost := 2, current_price := 2 }

def sW3 : LedgerState := ⟨[oW3], [pW3], ⟨10, 10, 20, str "T"⟩⟩

/-- The ledger after executing `oW3` from `sW3`: cash credited with 15,
the AAPL position sold out and removed. -/
def sW3x : LedgerState :=
  ⟨[{ oW3 with status := str "executed", executed_at := some (str "U") }],
    [], ⟨25, 0, 25, str "U"⟩⟩

/-- An open buy order for 2 ABC at 0.02 (existing position: 1 ABC at
average cost 0.01). -/
def oC4 : Order :=
  { id := str "ORD001", symbol := str "ABC", type := str "stock",
    action := str "buy", quantity := 2, price := 2/100, total := 1/25,
    status := str "open", created_at := str "T" }

def pC4 : Position :=
  { symbol := str "ABC", name := str "ABC", type := str "stock",
    quantity := 1, avg_cost := 1/100, current_price := 1/100 }

def sC4 : LedgerState := ⟨[oC4], [pC4], ⟨100, 0, 100, str "T"⟩⟩

/-- The ledger after executing `oC4` from `sC4`: the exact weighted
average cost would be 0.05/3 = 0.01666…, stored as `round(…, 4) = 0.0167`. -/
def sC4x : LedgerState :=
  ⟨[{ oC4 with status := str "executed", executed_at := some (str "U") }],
    [{ symbol := str "ABC", name := str "ABC", type := str "stock",
       quantity := 3, avg_cost := 167/10000, current_price := 1/50 }],
    ⟨2499/25, 3/50, 5001/50, str "U"⟩⟩

/-- An order whose id is the bare digit string `"7"`. -/
def oC5 : Order :=
  { id := str "7", symbol := str "AAPL", type := str "stock",
    action := str "buy", quantity := 1, price := 2, total := 2,
    status := str "executed", created_at := str "T" }

/-- An executed order with the conforming id `"ORD024"`. -/
def oW5 : Order :=
  { id := str "ORD024", symbol := str "AAPL", type := str "stock",
    action := str "buy", quantity := 1, price := 2, total := 2,
    status := str "executed", created_at := str "T" }

/-- An open buy order for 5 ZZZ at 100 (total 500). -/
def oC9 : Order :=
  { id := str "ORD001", symbol := str "ZZZ", type := str "stock",
    action := str "buy", quantity := 5, price := 100, total := 500,
    status := str "open", created_at := str "T" }

def sC9 : LedgerState := ⟨[oC9], [], ⟨1000, 0, 1000, str "T"⟩⟩

/-- What the interleaved run leaves behind: the order `executed`, the
position created, the cash debited — the committed cancellation is gone. -/
def sC9x : LedgerState :=
  ⟨[{ oC9 with status := str "executed", executed_at := some (str "E") }],
    [{ symbol := str "ZZZ", name := str "ZZZ", type := str "stock",
       quantity := 5, avg_cost := 100, current_price := 100 }],
    ⟨500, 500, 1000, str "E"⟩⟩

def sC10 : LedgerState := ⟨[], [], ⟨100, 0, 100, str "T"⟩⟩

/-! ## Lemmas and claim theorems -/

theorem toNat_ofNat_valid {m : ℕ} (h : m < 55296) : (Char.ofNat m).toNat = m := by
  have hv : m.isValidChar := Or.inl h
  simp [Char.ofNat, hv, Char.ofNatAux, Char.toNat, UInt32.toNat, BitVec.toNat_ofNatLt]

theorem charUpper_idem (c : Char) : (c.toUpper).toUpper = c.toUpper := by
  simp only [Char.toUpper]
  by_cases h : c.toNat ≥ 97 ∧ c.toNat ≤ 122
  · rw [if_pos h]
    have h2 : (Char.ofNat (c.toNat - 32)).toNat = c.toNat - 32 :=
      toNat_ofNat_valid (by omega)
    rw [if_neg (by rw [h2]; omega)]
  · simp [h]

theorem upperStr_idem (s : Str) : upperStr (upperStr s) = upperStr s := by
  simp [upperStr, List.map_map, Function.comp_def, charUpper_idem]

theorem IsDec.add {n : ℕ} {x y : ℚ} (hx : IsDec n x) (hy : IsDec n y) :
    IsDec n (x + y) := by
  obtain ⟨mx, hmx⟩ := hx
  obtain ⟨my, hmy⟩ := hy
  exact ⟨mx + my, by rw [hmx, hmy]; push_cast; ring⟩

theorem IsDec.sub {n : ℕ} {x y : ℚ} (hx : IsDec n x) (hy : IsDec n y) :
    IsDec n (x - y) := by
  obtain ⟨mx, hmx⟩ := hx
  obtain ⟨my, hmy⟩ := hy
  exact ⟨mx - my, by rw [hmx, hmy]; push_cast; ring⟩

theorem rhe_intCast (m : ℤ) : rhe (m : ℚ) = m := by
  simp [rhe]

/-- Rounding is the identity on exact `n`-digit decimals. -/
theorem rnd_eq_self {n : ℕ} {x : ℚ} (h : IsDec n x) : rnd n x = x := by
  obtain ⟨m, hm⟩ := h
  have hpow : (10 : ℚ) ^ n ≠ 0 := by positivity
  have hx : x * 10 ^ n = (m : ℚ) := by
    rw [hm]; field_simp
  rw [rnd, hx, rhe_intCast, ← hm]

/-- Rounding to `n` digits always produces an exact `n`-digit decimal. -/
theorem isDec_rnd (n : ℕ) (x : ℚ) : IsDec n (rnd n x) := ⟨rhe (x * 10 ^ n), rfl⟩

/-! ## Helper lemmas: updateFirst and find? -/

theorem find?_updateFirst {α : Type} (p : α → Bool) (f : α → α)
    (hpf : ∀ a, p a = true → p (f a) = true) (l : List α) :
    List.find? p (updateFirst p f l) = (List.find? p l).map f := by
  induction l with
  | nil => simp [updateFirst]
  | cons a rest ih =>
    by_cases hpa : p a = true
    · rw [updateFirst, if_pos hpa, List.find?_cons_of_pos _ (hpf a hpa),
        List.find?_cons_of_pos _ hpa, Option.map_some']
    · rw [updateFirst, if_neg hpa,
        List.find?_cons_of_neg _ (by simpa using hpa),
        List.find?_cons_of_neg _ (by simpa using hpa), ih]

theorem mem_updateFirst {α : Type} {p : α → Bool} {f : α → α} {l : List α}
    {a' : α} (h : a' ∈ updateFirst p f l) :
    a' ∈ l ∨ ∃ a ∈ l, p a = true ∧ a' = f a := by
  induction l with
  | nil => simp [updateFirst] at h
  | cons a rest ih =>
    by_cases hpa : p a = true
    · rw [updateFirst, if_pos hpa] at h
      rcases List.mem_cons.mp h with h1 | h1
      · exact Or.inr ⟨a, List.mem_cons_self a rest, hpa, h1⟩
      · exact Or.inl (List.mem_cons_of_mem a h1)
    · rw [updateFirst, if_neg hpa] at h
      rcases List.mem_cons.mp h with h1 | h1
      · exact Or.inl (h1 ▸ List.mem_cons_self a rest)
      · rcases ih h1 with h2 | ⟨b, hb, hpb, hfb⟩
        · exact Or.inl (List.mem_cons_of_mem a h2)
        · exact Or.inr ⟨b, List.mem_cons_of_mem a hb, hpb, hfb⟩

/-! ## Helper lemmas: digit strings and id parsing -/

theorem digitChar_isDigit {d : ℕ} (h : d < 10) : (digitChar d).isDigit = true := by
  interval_cases d <;> decide

theorem digitChar_toNat {d : ℕ} (h : d < 10) : (digitChar d).toNat - 48 = d := by
  interval_cases d <;> decide

theorem natToDigits_isDigit (n : ℕ) : ∀ c ∈ natToDigits n, c.isDigit = true := by
  induction n using Nat.strong_induction_on with
  | _ n ih =>
    intro c hc
    rw [natToDigits] at hc
    by_cases h : n < 10
    · rw [dif_pos h] at hc
      simp only [List.mem_singleton] at hc
      exact hc ▸ digitChar_isDigit h
    · rw [dif_neg h] at hc
      rcases List.mem_append.mp hc with h1 | h1
      · exact ih (n / 10) (Nat.div_lt_self (by omega) (by omega)) c h1
      · simp only [List.mem_singleton] at h1
        exact h1 ▸ digitChar_isDigit (Nat.mod_lt _ (by omega))

theorem natToDigits_ne_nil (n : ℕ) : natToDigits n ≠ [] := by
  rw [natToDigits]
  by_cases h : n < 10
  · rw [dif_pos h]; simp
  · rw [dif_neg h]; simp

theorem digitsVal_from (a : ℕ) (l : List Char) :
    l.foldl (fun a c => 10 * a + (c.toNat - 48)) a =
      a * 10 ^ l.length + digitsVal l := by
  induction l generalizing a with
  | nil => simp [digitsVal]
  | cons c r ih =>
    rw [digitsVal, List.foldl_cons, List.foldl_cons, ih, ih (10 * 0 + (c.toNat - 48))]
    ring_nf
    simp [List.length_cons, pow_succ]
    ring

theorem digitsVal_append (l1 l2 : List Char) :
    digitsVal (l1 ++ l2) = digitsVal l1 * 10 ^ l2.length + digitsVal l2 := by
  rw [digitsVal, List.foldl_append, ← digitsVal, digitsVal_from]

theorem digitsVal_natToDigits (n : ℕ) : digitsVal (natToDigits n) = n := by
  induction n using Nat.strong_induction_on with
  | _ n ih =>
    rw [natToDigits]
    by_cases h : n < 10
    · rw [dif_pos h]
      simp [digitsVal, digitChar_toNat h]
    · rw [dif_neg h, digitsVal_append,
        ih (n / 10) (Nat.div_lt_self (by omega) (by omega))]
      simp [digitsVal, digitChar_toNat (Nat.mod_lt n (show 0 < 10 by omega))]
      omega

theorem digitsVal_replicate_zero (k : ℕ) :
    List.foldl (fun a c => 10 * a + (c.toNat - 48)) 0 (List.replicate k '0') = 0 := by
  induction k with
  | zero => simp
  | succ k ih => simpa [List.replicate_succ]

theorem digitsVal_pad3 (n : ℕ) : digitsVal (pad3 n) = n := by
  rw [pad3, digitsVal, List.foldl_append, digitsVal_replicate_zero, ← digitsVal,
    digitsVal_natToDigits]

theorem pad3_isDigit (n : ℕ) : ∀ c ∈ pad3 n, c.isDigit = true := by
  intro c hc
  rcases List.mem_append.mp hc with h1 | h1
  · rw [List.eq_of_mem_replicate h1]; decide
  · exact natToDigits_isDigit n c h1

theorem pad3_ne_nil (n : ℕ) : pad3 n ≠ [] := by
  intro h
  exact natToDigits_ne_nil n (List.append_eq_nil.mp h).2

theorem stripORD_of_digits {l : List Char} (h : ∀ c ∈ l, c.isDigit = true) :
    stripORD l = l := by
  induction l using stripORD.induct with
  | case1 => rfl
  | case2 c => rfl
  | case3 c1 c2 => rfl
  | case4 c1 c2 c3 r hord ih =>
    exfalso
    have : c1.isDigit = true := h c1 (by simp)
    rw [hord.1] at this
    exact absurd this (by decide)
  | case5 c1 c2 c3 r hord ih =>
    rw [stripORD, if_neg hord]
    rw [ih (fun c hc => h c (List.mem_cons_of_mem c1 hc))]

theorem stripORD_ord (l : List Char) :
    stripORD ('O' :: 'R' :: 'D' :: l) = stripORD l := by
  rw [stripORD, if_pos ⟨rfl, rfl, rfl⟩]

theorem isDigit_not_ws {c : Char} (h : c.isDigit = true) :
    c.isWhitespace = false := by
  rw [Char.isWhitespace]
  by_cases h1 : c = ' '
  · rw [h1] at h; exact absurd h (by decide)
  · by_cases h2 : c = '\t'
    · rw [h2] at h; exact absurd h (by decide)
    · by_cases h3 : c = '\r'
      · rw [h3] at h; exact absurd h (by decide)
      · by_cases h4 : c = '\n'
        · rw [h4] at h; exact absurd h (by decide)
        · simp [h1, h2, h3, h4]

theorem dropWhile_ws_of_digits {l : List Char} (h : ∀ c ∈ l, c.isDigit = true) :
    l.dropWhile Char.isWhitespace = l := by
  cases l with
  | nil => rfl
  | cons c r =>
    rw [List.dropWhile_cons,
      if_neg (by rw [isDigit_not_ws (h c (by simp))]; simp)]

theorem trimWs_of_digits {l : List Char} (h : ∀ c ∈ l, c.isDigit = true) :
    trimWs l = l := by
  rw [trimWs, dropWhile_ws_of_digits h,
    dropWhile_ws_of_digits (fun c hc => h c (List.mem_reverse.mp hc)),
    List.reverse_reverse]

theorem parsePyInt_digits {l : List Char} (hne : l ≠ [])
    (h : ∀ c ∈ l, c.isDigit = true) :
    parsePyInt l = some ((digitsVal l : ℤ)) := by
  cases l with
  | nil => exact absurd rfl hne
  | cons c r =>
    have hc : c.isDigit = true := h c (by simp)
    have hcm : c ≠ '-' := by rintro rfl; exact absurd hc (by decide)
    have hcp : c ≠ '+' := by rintro rfl; exact absurd hc (by decide)
    simp only [parsePyInt, trimWs_of_digits h, if_neg hcm, if_neg hcp,
      digitsVal?, if_pos (And.intro (List.cons_ne_nil c r) h), Option.map_some']

theorem idNum_ord_digits {ds : List Char} (hne : ds ≠ [])
    (h : ∀ c ∈ ds, c.isDigit = true) :
    idNum (str "ORD" ++ ds) = some ((digitsVal ds : ℤ)) := by
  have : str "ORD" ++ ds = 'O' :: 'R' :: 'D' :: ds := rfl
  rw [idNum, this, stripORD_ord, stripORD_of_digits h, parsePyInt_digits hne h]

/-! ## Helper lemmas: maxOrdNum and next_order_id -/

theorem maxOrdNum_init_le (orders : List Order) (init : ℤ) :
    init ≤ orders.foldl
      (fun m o => match idNum o.id with
        | some num => if num > m then num else m
        | none => m)
      init := by
  induction orders generalizing init with
  | nil => simp
  | cons o rest ih =>
    rw [List.foldl_cons]
    refine le_trans ?_ (ih _)
    cases idNum o.id with
    | none => simp
    | some num =>
      simp only
      split <;> omega

theorem maxOrdNum_nonneg (orders : List Order) : 0 ≤ maxOrdNum orders :=
  maxOrdNum_init_le orders 0

theorem maxOrdNum_mem_le {orders : List Order} {o : Order} {k : ℤ}
    (hmem : o ∈ orders) (hk : idNum o.id = some k) : k ≤ maxOrdNum orders := by
  rw [maxOrdNum]
  generalize (0 : ℤ) = init
  induction orders generalizing init with
  | nil => simp at hmem
  | cons a rest ih =>
    rw [List.foldl_cons]
    rcases List.mem_cons.mp hmem with rfl | h1
    · refine le_trans ?_ (maxOrdNum_init_le rest _)
      rw [hk]
      simp only
      split <;> omega
    · exact ih h1 _

theorem maxOrdNum_append_one (orders : List Order) (o : Order) :
    maxOrdNum (orders ++ [o]) =
      (match idNum o.id with
        | some num => if num > maxOrdNum orders then num else maxOrdNum orders
        | none => maxOrdNum orders) := by
  rw [maxOrdNum, List.foldl_append, List.foldl_cons, List.foldl_nil, ← maxOrdNum]

/-- The allocated id parses back to the allocated number. -/
theorem idNum_next_order_id (orders : List Order) :
    idNum (next_order_id orders) = some ((maxOrdNum orders + 1).toNat : ℤ) := by
  rw [next_order_id,
    idNum_ord_digits (pad3_ne_nil _) (pad3_isDigit _), digitsVal_pad3]

/-- No existing order carries the id the allocator hands out next. -/
theorem next_order_id_fresh {orders : List Order} {o : Order}
    (hmem : o ∈ orders) : o.id ≠ next_order_id orders := by
  intro heq
  have h1 : idNum o.id = some ((maxOrdNum orders + 1).toNat : ℤ) := by
    rw [heq]; exact idNum_next_order_id orders
  have h2 := maxOrdNum_mem_le hmem h1
  have h3 := maxOrdNum_nonneg orders
  omega

/-! ## Claim theorems -/

/-- C1: for a buy placement with a quote price available, if
`total = round(price*quantity, 2)` is at most the current cash (including
exactly equal) an open order is created and persisted (appended to the
orders file; balances and positions untouched); if `total` exceeds cash by
any amount the placement fails with `InsufficientCashError` and the ledger
is completely unchanged. -/
theorem buy_cash_check_boundary (s : LedgerState) (symbol : Str)
    (quantity price : ℚ) (now : Str) :
    (rnd 2 (price * quantity) ≤ s.balances.cash →
      (buy s symbol quantity (some price) now).1 =
          BuyResult.placed (next_order_id s.orders)
      ∧ (buy s symbol quantity (some price) now).2.orders =
          s.orders ++ [mkBuyOrder (next_order_id s.orders) (upperStr symbol)
            quantity price (rnd 2 (price * quantity)) now]
      ∧ (mkBuyOrder (next_order_id s.orders) (upperStr symbol)
            quantity price (rnd 2 (price * quantity)) now).status = str "open"
      ∧ (buy s symbol quantity (some price) now).2.positions = s.positions
      ∧ (buy s symbol quantity (some price) now).2.balances = s.balances)
    ∧ (rnd 2 (price * quantity) > s.balances.cash →
      buy s symbol quantity (some price) now = (BuyResult.insufficientCash, s)) := by
  constructor
  · intro h
    simp [buy, mkBuyOrder, if_neg (not_lt.mpr h)]
  · intro h
    simp only [buy, if_pos h]

theorem natToDigits_one : natToDigits 1 = ['1'] := by
  rw [natToDigits, dif_pos (by norm_num : (1 : ℕ) < 10)]
  decide

theorem pad3_one : pad3 1 = ['0', '0', '1'] := by
  rw [pad3, natToDigits_one]
  rfl

theorem next_order_id_nil : next_order_id ([] : List Order) = str "ORD001" := by
  have h0 : maxOrdNum [] = 0 := rfl
  rw [next_order_id, h0]
  rw [show ((0 : ℤ) + 1).toNat = 1 from rfl, pad3_one]
  rfl

theorem buy_cash_check_boundary_witness :
    (buy ⟨[], [], ⟨100, 0, 100, str "T"⟩⟩ (str "aapl") 10 (some 5) (str "T")).1 =
        BuyResult.placed (str "ORD001")
    ∧ buy ⟨[], [], ⟨1000, 0, 1000, str "T"⟩⟩ (str "xyz") 101 (some 10) (str "T") =
        (BuyResult.insufficientCash, ⟨[], [], ⟨1000, 0, 1000, str "T"⟩⟩) := by
  have hid : next_order_id ([] : List Order) = str "ORD001" := next_order_id_nil
  constructor
  · have h := (buy_cash_check_boundary ⟨[], [], ⟨100, 0, 100, str "T"⟩⟩
      (str "aapl") 10 5 (str "T")).1 (by norm_num [rnd, rhe])
    rw [hid] at h
    exact h.1
  · exact (buy_cash_check_boundary ⟨[], [], ⟨1000, 0, 1000, str "T"⟩⟩
      (str "xyz") 101 10 (str "T")).2 (by norm_num [rnd, rhe])

/-- C6: invoking `_execute_order` for an id that is not found, or whose
order's status is no longer `"open"`, returns without any effect: the
ledger is unchanged, no notification is emitted, and no error is raised. -/
theorem execute_non_open_noop (s : LedgerState) (order_id now : Str) :
    (findOrder s.orders order_id = none →
      _execute_order s order_id now = some (s, []))
    ∧ (∀ o, findOrder s.orders order_id = some o → o.status ≠ str "open" →
      _execute_order s order_id now = some (s, [])) := by
  constructor
  · intro h
    rw [_execute_order, execFromSnapshot, h]
  · intro o h hst
    rw [_execute_order, execFromSnapshot, h]
    simp only [if_pos hst]

theorem execute_non_open_noop_witness :
    _execute_order
      ⟨[{ id := str "ORD001", symbol := str "AAPL", type := str "stock",
          action := str "buy", quantity := 1, price := 2, total := 2,
          status := str "cancelled", created_at := str "T" }], [],
        ⟨100, 0, 100, str "T"⟩⟩
      (str "ORD001") (str "U") =
      some
        (⟨[{ id := str "ORD001", symbol := str "AAPL", type := str "stock",
             action := str "buy", quantity := 1, price := 2, total := 2,
             status := str "cancelled", created_at := str "T" }], [],
          ⟨100, 0, 100, str "T"⟩⟩, []) := by
  refine (execute_non_open_noop _ _ _).2
    { id := str "ORD001", symbol := str "AAPL", type := str "stock",
      action := str "buy", quantity := 1, price := 2, total := 2,
      status := str "cancelled", created_at := str "T" } ?_ (by decide)
  simp [findOrder]

/-- C7: `cancel_order` uppercases the requested id before the lookup, so
the lookup is case-insensitive (cancelling `id` and cancelling
`upper(id)` are the same operation); a missing id fails with
`OrderNotFoundError` and changes nothing; an order whose status is not
`"open"` fails with `InvalidStateError` carrying that status and changes
nothing (so a second cancel never double-transitions); an open order
transitions to `"cancelled"` with `cancelled_at` stamped, and the
rewritten orders list is persisted with positions and balances
untouched. -/
theorem cancel_order_cases (s : LedgerState) (order_id now : Str) :
    (findOrder s.orders (upperStr order_id) = none →
      cancel_order s order_id now = (CancelResult.notFound, s))
    ∧ (∀ o, findOrder s.orders (upperStr order_id) = some o →
        o.status ≠ str "open" →
        cancel_order s order_id now = (CancelResult.invalidState o.status, s))
    ∧ (∀ o, findOrder s.orders (upperStr order_id) = some o →
        o.status = str "open" →
        (cancel_order s order_id now).1 = CancelResult.cancelled
        ∧ findOrder (cancel_order s order_id now).2.orders (upperStr order_id) =
            some { o with status := str "cancelled", cancelled_at := some now }
        ∧ (cancel_order s order_id now).2.positions = s.positions
        ∧ (cancel_order s order_id now).2.balances = s.balances)
    ∧ cancel_order s order_id now = cancel_order s (upperStr order_id) now := by
  refine ⟨?_, ?_, ?_, ?_⟩
  · intro h
    rw [cancel_order, h]
  · intro o h hst
    rw [cancel_order, h]
    simp only [if_pos hst]
  · intro o h hst
    have hres : cancel_order s order_id now =
        (CancelResult.cancelled,
          { s with
            orders := updateOrder s.orders (upperStr order_id)
              (fun o =>
                { o with status := str "cancelled", cancelled_at := some now }) }) := by
      rw [cancel_order, h]
      simp only [if_neg (not_not_intro hst)]
    refine ⟨by rw [hres], ?_, by rw [hres], by rw [hres]⟩
    rw [hres]
    show findOrder (updateOrder s.orders (upperStr order_id) _) _ = _
    rw [findOrder, updateOrder,
      find?_updateFirst _ _ (fun a ha => by simpa using ha), ← findOrder, h,
      Option.map_some']
  · simp only [cancel_order, upperStr_idem]

theorem cancel_order_cases_witness :
    (cancel_order
      ⟨[{ id := str "ORD001", symbol := str "AAPL", type := str "stock",
          action := str "buy", quantity := 1, price := 2, total := 2,
          status := str "open", created_at := str "T" }], [],
        ⟨100, 0, 100, str "T"⟩⟩
      (str "ord001") (str "U")).1 = CancelResult.cancelled
    ∧ cancel_order (⟨[], [], ⟨100, 0, 100, str "T"⟩⟩ : LedgerState)
        (str "ord9") (str "U") =
      (CancelResult.notFound, ⟨[], [], ⟨100, 0, 100, str "T"⟩⟩) := by
  constructor
  · exact ((cancel_order_cases _ _ _).2.2.1
      { id := str "ORD001", symbol := str "AAPL", type := str "stock",
        action := str "buy", quantity := 1, price := 2, total := 2,
        status := str "open", created_at := str "T" }
      (by simp [findOrder]; decide) (by decide)).1
  · exact (cancel_order_cases _ _ _).1 (by simp [findOrder])

theorem findOrder_updateOrder (orders : List Order) (oid : Str)
    (f : Order → Order) (hf : ∀ o, (f o).id = o.id) :
    findOrder (updateOrder orders oid f) oid = (findOrder orders oid).map f := by
  rw [findOrder, updateOrder, find?_updateFirst _ _ ?_, findOrder]
  intro a ha
  simpa [hf a] using ha

/-- C8: when execution-time re-validation fails (buy: the order's `total`
exceeds current cash; sell: the position is missing or holds less than the
order's quantity), the order transitions to `cancelled` with
`cancelled_at` stamped and the orders list persisted, exactly one failure
notification is emitted, and balances and positions are completely
unchanged. -/
theorem execution_revalidation_failure (s : LedgerState) (order_id now : Str)
    (o : Order) (hfind : findOrder s.orders order_id = some o)
    (hopen : o.status = str "open") :
    (o.action = str "buy" → o.total > s.balances.cash →
      _execute_order s order_id now =
        some ({ s with orders := updateOrder s.orders order_id (markCancelled now) },
          [ExecNote.execFailed order_id])
      ∧ findOrder (updateOrder s.orders order_id (markCancelled now)) order_id =
          some (markCancelled now o)
      ∧ (markCancelled now o).status = str "cancelled"
      ∧ (markCancelled now o).cancelled_at = some now)
    ∧ (o.action = str "sell" →
      (findPos s.positions o.symbol = none
        ∨ ∃ pos, findPos s.positions o.symbol = some pos
            ∧ o.quantity > pos.quantity) →
      _execute_order s order_id now =
        some ({ s with orders := updateOrder s.orders order_id (markCancelled now) },
          [ExecNote.execFailed order_id])
      ∧ findOrder (updateOrder s.orders order_id (markCancelled now)) order_id =
          some (markCancelled now o)
      ∧ (markCancelled now o).status = str "cancelled"
      ∧ (markCancelled now o).cancelled_at = some now) := by
  have hfd : findOrder (updateOrder s.orders order_id (markCancelled now)) order_id =
      some (markCancelled now o) := by
    rw [findOrder_updateOrder s.orders order_id (markCancelled now) (fun o => rfl),
      hfind, Option.map_some']
  constructor
  · intro hbuy hcash
    refine ⟨?_, hfd, rfl, rfl⟩
    rw [_execute_order, execFromSnapshot, hfind]
    simp only [if_neg (not_not_intro hopen), if_pos hbuy, if_pos hcash]
  · intro hsell hval
    refine ⟨?_, hfd, rfl, rfl⟩
    have hnotbuy : ¬(o.action = str "buy") := by
      rw [hsell]; decide
    rw [_execute_order, execFromSnapshot, hfind]
    simp only [if_neg (not_not_intro hopen), if_neg hnotbuy, if_pos hsell]
    rcases hval with hnone | ⟨pos, hpos, hq⟩
    · rw [hnone]
    · rw [hpos]
      simp only [if_pos hq]

theorem execution_revalidation_failure_witness :
    (_execute_order
      ⟨[{ id := str "ORD001", symbol := str "AAPL", type := str "stock",
          action := str "buy", quantity := 3, price := 50, total := 150,
          status := str "open", created_at := str "T" }], [],
        ⟨100, 0, 100, str "T"⟩⟩
      (str "ORD001") (str "U")).map (fun r => r.2) =
      some [ExecNote.execFailed (str "ORD001")] := by
  have h := ((execution_revalidation_failure
    ⟨[{ id := str "ORD001", symbol := str "AAPL", type := str "stock",
        action := str "buy", quantity := 3, price := 50, total := 150,
        status := str "open", created_at := str "T" }], [],
      ⟨100, 0, 100, str "T"⟩⟩
    (str "ORD001") (str "U")
    { id := str "ORD001", symbol := str "AAPL", type := str "stock",
      action := str "buy", quantity := 3, price := 50, total := 150,
      status := str "open", created_at := str "T" }
    (by simp [findOrder]) (by decide)).1 (by decide) (by norm_num)).1
  rw [h]
  rfl

/-- Branch equation: executing an open buy order whose symbol has no
existing position and whose total passes the cash re-check. -/
theorem exec_buy_fresh_eq (store : LedgerState) (orders : List Order)
    (bal : Balances) (pos : List Position) (order_id now : Str) (o : Order)
    (hfind : findOrder orders order_id = some o)
    (hopen : o.status = str "open") (hbuy : o.action = str "buy")
    (hcash : ¬(o.total > bal.cash)) (hpos : findPos pos o.symbol = none) :
    execFromSnapshot store orders bal pos order_id now =
      some (commitExecution orders
        (pos ++
          [{ symbol := o.symbol
             name := o.symbol
             type := o.type
             quantity := o.quantity
             avg_cost := o.price
             current_price := o.price }])
        { bal with cash := rnd 2 (bal.cash - o.total) } order_id now) := by
  simp only [execFromSnapshot, hfind, if_neg (not_not_intro hopen),
    if_pos hbuy, if_neg hcash, hpos]

theorem findPos_updatePos (positions : List Position) (sym : Str)
    (f : Position → Position) (hf : ∀ p, (f p).symbol = p.symbol) :
    findPos (updatePos positions sym f) sym = (findPos positions sym).map f := by
  rw [findPos, updatePos, find?_updateFirst _ _ ?_, findPos]
  intro a ha
  simpa [hf a] using ha

/-- Branch equation: executing an open sell order that passes the holdings
re-check. -/
theorem exec_sell_pos_eq (store : LedgerState) (orders : List Order)
    (bal : Balances) (pos_list : List Position) (order_id now : Str)
    (o : Order) (pos : Position)
    (hfind : findOrder orders order_id = some o)
    (hopen : o.status = str "open") (hsell : o.action = str "sell")
    (hpos : findPos pos_list o.symbol = some pos)
    (hq : ¬(o.quantity > pos.quantity)) :
    execFromSnapshot store orders bal pos_list order_id now =
      some (commitExecution orders
        (if rnd 8 (pos.quantity - o.quantity) ≤ 0 then
          (updatePos pos_list o.symbol (fun p =>
            { p with
              quantity := rnd 8 (pos.quantity - o.quantity)
              current_price := o.price })).filter (fun p => p.symbol ≠ o.symbol)
        else
          updatePos pos_list o.symbol (fun p =>
            { p with
              quantity := rnd 8 (pos.quantity - o.quantity)
              current_price := o.price }))
        { bal with cash := rnd 2 (bal.cash + o.total) } order_id now) := by
  have hnotbuy : ¬(o.action = str "buy") := by rw [hsell]; decide
  simp only [execFromSnapshot, hfind, if_neg (not_not_intro hopen),
    if_neg hnotbuy, if_pos hsell, hpos, if_neg hq]

/-- C3: for every sell order that executes successfully (2-decimal cash and
total, 8-decimal quantities, as the ledger stores them), cash is credited
by exactly the order's total; the position's quantity decreases by exactly
the sold quantity when something remains, and when the remaining quantity
is zero or below no position for the symbol survives. -/
theorem sell_execution_effects (s : LedgerState) (order_id now : Str)
    (o : Order) (s2 : LedgerState) (notes : List ExecNote) (pos : Position)
    (hex : _execute_order s order_id now = some (s2, notes))
    (hfind : findOrder s.orders order_id = some o)
    (hopen : o.status = str "open") (hsell : o.action = str "sell")
    (hpos : findPos s.positions o.symbol = some pos)
    (hq : o.quantity ≤ pos.quantity)
    (hc2 : IsDec 2 s.balances.cash) (ht2 : IsDec 2 o.total)
    (hq8 : IsDec 8 pos.quantity) (hoq8 : IsDec 8 o.quantity) :
    s2.balances.cash = s.balances.cash + o.total
    ∧ (0 < pos.quantity - o.quantity →
        findPos s2.positions o.symbol =
          some { pos with
              quantity := pos.quantity - o.quantity
              current_price := o.price })
    ∧ (pos.quantity - o.quantity ≤ 0 →
        ∀ p ∈ s2.positions, p.symbol ≠ o.symbol) := by
  rw [_execute_order, exec_sell_pos_eq s s.orders s.balances s.positions
    order_id now o pos hfind hopen hsell hpos (not_lt.mpr hq)] at hex
  have hq' : rnd 8 (pos.quantity - o.quantity) = pos.quantity - o.quantity :=
    rnd_eq_self (hq8.sub hoq8)
  have h2 := Option.some.inj hex
  have hs2 : s2 = (commitExecution s.orders
      (if rnd 8 (pos.quantity - o.quantity) ≤ 0 then
        (updatePos s.positions o.symbol (fun p =>
          { p with
              quantity := rnd 8 (pos.quantity - o.quantity)
              current_price := o.price })).filter (fun p => p.symbol ≠ o.symbol)
      else
        updatePos s.positions o.symbol (fun p =>
          { p with
              quantity := rnd 8 (pos.quantity - o.quantity)
              current_price := o.price }))
      { s.balances with cash := rnd 2 (s.balances.cash + o.total) }
      order_id now).1 := by
    rw [h2]
  refine ⟨?_, ?_, ?_⟩
  · rw [hs2]
    show rnd 2 (s.balances.cash + o.total) = _
    exact rnd_eq_self (hc2.add ht2)
  · intro hlt
    have hcond : ¬(rnd 8 (pos.quantity - o.quantity) ≤ 0) := by
      rw [hq']; exact not_le.mpr hlt
    rw [hs2]
    show findPos (if _ then _ else _) o.symbol = _
    rw [if_neg hcond,
      findPos_updatePos s.positions o.symbol
        (fun p =>
          { p with
            quantity := rnd 8 (pos.quantity - o.quantity)
            current_price := o.price })
        (fun p => rfl),
      hpos, Option.map_some', hq']
  · intro hle
    have hcond : rnd 8 (pos.quantity - o.quantity) ≤ 0 := by
      rw [hq']; exact hle
    rw [hs2]
    intro p hp
    rw [show (commitExecution s.orders _ _ order_id now).1.positions = _ from rfl,
      if_pos hcond] at hp
    have := List.mem_filter.mp hp
    simpa using this.2

theorem sell_execution_effects_witness :
    sW3x.balances.cash = sW3.balances.cash + oW3.total
    ∧ (∀ p ∈ sW3x.positions, p.symbol ≠ oW3.symbol) := by
  have hex : _execute_order sW3 (str "ORD001") (str "U") =
      some (sW3x, [ExecNote.execOk (str "ORD001")]) := by
    rw [_execute_order, exec_sell_pos_eq sW3 sW3.orders sW3.balances
      sW3.positions (str "ORD001") (str "U") oW3 pW3 (by decide) (by decide)
      (by decide) (by decide) (by norm_num [oW3, pW3])]
    simp only [sW3, sW3x, oW3, pW3, updatePos, updateFirst, commitExecution,
      nonCashSum, updateOrder, markExecuted]
    norm_num [rnd, rhe]
  have h := sell_execution_effects sW3 (str "ORD001") (str "U") oW3 sW3x
    [ExecNote.execOk (str "ORD001")] pW3 hex (by decide) (by decide) (by decide)
    (by decide) (by norm_num [oW3, pW3]) ⟨1000, by norm_num [sW3]⟩
    ⟨1500, by norm_num [oW3]⟩ ⟨500000000, by norm_num [pW3]⟩
    ⟨500000000, by norm_num [oW3]⟩
  exact ⟨h.1, h.2.2 (by norm_num [oW3, pW3])⟩

/-- Branch equation: executing an open buy order onto an existing position
(the updated quantity not rounding to zero). -/
theorem exec_buy_pos_eq (store : LedgerState) (orders : List Order)
    (bal : Balances) (pos_list : List Position) (order_id now : Str)
    (o : Order) (pos : Position)
    (hfind : findOrder orders order_id = some o)
    (hopen : o.status = str "open") (hbuy : o.action = str "buy")
    (hcash : ¬(o.total > bal.cash))
    (hpos : findPos pos_list o.symbol = some pos)
    (hq : ¬(rnd 8 (pos.quantity + o.quantity) = 0)) :
    execFromSnapshot store orders bal pos_list order_id now =
      some (commitExecution orders
        (updatePos pos_list o.symbol (fun p =>
          { p with
            quantity := rnd 8 (pos.quantity + o.quantity)
            avg_cost := rnd 4 ((pos.quantity * pos.avg_cost +
              o.quantity * o.price) / rnd 8 (pos.quantity + o.quantity))
            current_price := o.price }))
        { bal with cash := rnd 2 (bal.cash - o.total) } order_id now) := by
  simp only [execFromSnapshot, hfind, if_neg (not_not_intro hopen),
    if_pos hbuy, if_neg hcash, hpos, if_neg hq]

/-- C4 (amended): `avg_cost` is touched only by buy-side execution.  For a
buy onto an existing position (8-decimal quantities) the new `avg_cost` is
the quantity-weighted average of the old cost and the fill price, rounded
to 4 decimal places; a buy with no existing position creates one with
`avg_cost = price` exactly; and no sell execution (successful or not) ever
changes any position's `avg_cost`. -/
theorem avg_cost_update (s : LedgerState) (order_id now : Str) (o : Order)
    (s2 : LedgerState) (notes : List ExecNote)
    (hex : _execute_order s order_id now = some (s2, notes))
    (hfind : findOrder s.orders order_id = some o)
    (hopen : o.status = str "open") :
    (o.action = str "buy" → o.total ≤ s.balances.cash →
      (∀ pos, findPos s.positions o.symbol = some pos →
        IsDec 8 pos.quantity → IsDec 8 o.quantity →
        findPos s2.positions o.symbol =
          some { pos with
            quantity := pos.quantity + o.quantity
            avg_cost := rnd 4 ((pos.quantity * pos.avg_cost +
              o.quantity * o.price) / (pos.quantity + o.quantity))
            current_price := o.price })
      ∧ (findPos s.positions o.symbol = none →
        findPos s2.positions o.symbol =
          some { symbol := o.symbol
                 name := o.symbol
                 type := o.type
                 quantity := o.quantity
                 avg_cost := o.price
                 current_price := o.price }))
    ∧ (o.action = str "sell" →
      ∀ p2 ∈ s2.positions, ∃ p ∈ s.positions,
        p2.symbol = p.symbol ∧ p2.avg_cost = p.avg_cost) := by
  constructor
  · intro hbuy hcash
    have hnc : ¬(o.total > s.balances.cash) := not_lt.mpr hcash
    constructor
    · intro pos hpos hq8 hoq8
      by_cases hq : rnd 8 (pos.quantity + o.quantity) = 0
      · rw [_execute_order, execFromSnapshot] at hex
        simp only [hfind, if_neg (not_not_intro hopen), if_pos hbuy,
          if_neg hnc, hpos, if_pos hq] at hex
        exact absurd hex (by simp)
      · rw [_execute_order, exec_buy_pos_eq s s.orders s.balances s.positions
          order_id now o pos hfind hopen hbuy hnc hpos hq] at hex
        have hs2 : _ = s2 := congrArg Prod.fst (Option.some.inj hex)
        have hqsum : rnd 8 (pos.quantity + o.quantity) =
            pos.quantity + o.quantity := rnd_eq_self (hq8.add hoq8)
        rw [← hs2]
        show findPos (updatePos s.positions o.symbol _) o.symbol = _
        rw [findPos_updatePos s.positions o.symbol
          (fun p =>
            { p with
              quantity := rnd 8 (pos.quantity + o.quantity)
              avg_cost := rnd 4 ((pos.quantity * pos.avg_cost +
                o.quantity * o.price) / rnd 8 (pos.quantity + o.quantity))
              current_price := o.price })
          (fun p => rfl), hpos, Option.map_some', hqsum]
    · intro hpos
      rw [_execute_order, exec_buy_fresh_eq s s.orders s.balances s.positions
        order_id now o hfind hopen hbuy hnc hpos] at hex
      have hs2 : _ = s2 := congrArg Prod.fst (Option.some.inj hex)
      rw [← hs2]
      show findPos (s.positions ++ [_]) o.symbol = _
      rw [findPos, List.find?_append]
      rw [findPos] at hpos
      rw [hpos, Option.none_or, List.find?_cons_of_pos _ (by simp)]
  · intro hsell p2 hp2
    have hnotbuy : ¬(o.action = str "buy") := by rw [hsell]; decide
    rw [_execute_order, execFromSnapshot] at hex
    simp only [hfind, if_neg (not_not_intro hopen), if_neg hnotbuy,
      if_pos hsell] at hex
    cases hpos : findPos s.positions o.symbol with
    | none =>
      simp only [hpos] at hex
      have hs2 : _ = s2 := congrArg Prod.fst (Option.some.inj hex)
      rw [← hs2] at hp2
      exact ⟨p2, hp2, rfl, rfl⟩
    | some pos =>
      simp only [hpos] at hex
      by_cases hqq : o.quantity > pos.quantity
      · rw [if_pos hqq] at hex
        have hs2 : _ = s2 := congrArg Prod.fst (Option.some.inj hex)
        rw [← hs2] at hp2
        exact ⟨p2, hp2, rfl, rfl⟩
      · rw [if_neg hqq] at hex
        have hs2 : _ = s2 := congrArg Prod.fst (Option.some.inj hex)
        rw [← hs2] at hp2
        have hp2' : p2 ∈ updatePos s.positions o.symbol (fun p =>
            { p with
              quantity := rnd 8 (pos.quantity - o.quantity)
              current_price := o.price }) := by
          by_cases hcond : rnd 8 (pos.quantity - o.quantity) ≤ 0
          · rw [show (commitExecution s.orders _ _ order_id now).1.positions =
                _ from rfl, if_pos hcond] at hp2
            exact (List.mem_filter.mp hp2).1
          · rw [show (commitExecution s.orders _ _ order_id now).1.positions =
                _ from rfl, if_neg hcond] at hp2
            exact hp2
        rcases mem_updateFirst hp2' with h | ⟨p, hpmem, hpp, rfl⟩
        · exact ⟨p2, h, rfl, rfl⟩
        · exact ⟨p, hpmem, rfl, rfl⟩

theorem exec_sC4_eq :
    _execute_order sC4 (str "ORD001") (str "U") =
      some (sC4x, [ExecNote.execOk (str "ORD001")]) := by
  rw [_execute_order, exec_buy_pos_eq sC4 sC4.orders sC4.balances
    sC4.positions (str "ORD001") (str "U") oC4 pC4
    (by simp [findOrder, sC4, oC4]) (by decide) (by decide)
    (by norm_num [oC4, sC4]) (by simp [findPos, sC4, pC4, oC4])
    (by norm_num [oC4, pC4, rnd, rhe])]
  simp only [sC4, sC4x, oC4, pC4, updatePos, updateFirst, commitExecution,
    nonCashSum, updateOrder, markExecuted]
  norm_num [rnd, rhe]

/-- C4 counterexample: for the back-to-back-buys position of `sC4`
(1 ABC at avg 0.01; buy 2 ABC at 0.02 executes), the stored `avg_cost`
after execution is `0.0167`, which is not the exact quantity-weighted
average `(1·0.01 + 2·0.02)/(1+2) = 0.05/3`: the code stores the weighted
average rounded to 4 decimal places. -/
theorem avg_cost_update_cex :
    _execute_order sC4 (str "ORD001") (str "U") =
      some (sC4x, [ExecNote.execOk (str "ORD001")])
    ∧ findPos sC4x.positions (str "ABC") =
        some { symbol := str "ABC"
               name := str "ABC"
               type := str "stock"
               quantity := 3
               avg_cost := 167/10000
               current_price := 1/50 }
    ∧ (167 : ℚ)/10000 ≠
        (pC4.quantity * pC4.avg_cost + oC4.quantity * oC4.price) /
          (pC4.quantity + oC4.quantity) := by
  refine ⟨exec_sC4_eq, by simp [findPos, sC4x], by norm_num [oC4, pC4]⟩

theorem avg_cost_update_witness :
    findPos sC4x.positions oC4.symbol =
      some { pC4 with
        quantity := pC4.quantity + oC4.quantity
        avg_cost := rnd 4 ((pC4.quantity * pC4.avg_cost +
          oC4.quantity * oC4.price) / (pC4.quantity + oC4.quantity))
        current_price := oC4.price } := by
  exact ((avg_cost_update sC4 (str "ORD001") (str "U") oC4 sC4x
    [ExecNote.execOk (str "ORD001")] exec_sC4_eq
    (by simp [findOrder, sC4, oC4]) (by decide)).1 (by decide)
    (by norm_num [oC4, sC4])).1 pC4 (by simp [findPos, sC4, pC4, oC4])
    ⟨100000000, by norm_num [pC4]⟩ ⟨200000000, by norm_num [oC4]⟩

theorem pad3_small {n : ℕ} (h : n < 10) : pad3 n = ['0', '0', digitChar n] := by
  have h1 : natToDigits n = [digitChar n] := by rw [natToDigits, dif_pos h]
  rw [pad3, h1]
  rfl

/-- C5 (amended): the id `next_order_id` allocates collides with no
existing id; every existing id that conforms to the specification's
`"ORD" + digits` pattern has a numeric suffix strictly below the allocated
number (so successive ids are strictly increasing whatever malformed ids
are present); and appending an order carrying the allocated id bumps the
allocator's maximum by exactly one.  (The source computes the suffix as
`int(id.replace("ORD", ""))`, which also accepts ids the spec calls
non-conforming — e.g. a bare digit string — see the counterexample.) -/
theorem next_order_id_fresh_monotone (orders : List Order) :
    (∀ o ∈ orders, o.id ≠ next_order_id orders)
    ∧ (∀ o ∈ orders, ∀ ds : List Char, o.id = str "ORD" ++ ds → ds ≠ [] →
        (∀ c ∈ ds, c.isDigit = true) →
        (digitsVal ds : ℤ) < maxOrdNum orders + 1)
    ∧ (∀ o' : Order, o'.id = next_order_id orders →
        maxOrdNum (orders ++ [o']) = maxOrdNum orders + 1) := by
  refine ⟨fun o hmem => next_order_id_fresh hmem, ?_, ?_⟩
  · intro o hmem ds hid hne hdig
    have hk : idNum o.id = some ((digitsVal ds : ℤ)) := by
      rw [hid]; exact idNum_ord_digits hne hdig
    have := maxOrdNum_mem_le hmem hk
    omega
  · intro o' hid
    have hk : idNum o'.id = some ((maxOrdNum orders + 1).toNat : ℤ) := by
      rw [hid]; exact idNum_next_order_id orders
    have hnn := maxOrdNum_nonneg orders
    rw [maxOrdNum_append_one, hk]
    have htn : (((maxOrdNum orders + 1).toNat : ℤ)) = maxOrdNum orders + 1 := by
      omega
    rw [htn]
    show (if maxOrdNum orders + 1 > maxOrdNum orders then maxOrdNum orders + 1
      else maxOrdNum orders) = maxOrdNum orders + 1
    rw [if_pos (by omega)]

/-- C5 counterexample: on an orders list whose only id is the bare digit
string `"7"` — non-conforming under the specification's `"ORD" + digits`
pattern, hence to be ignored — the code returns `"ORD008"` (because
`int("7".replace("ORD", "")) = 7` parses fine), while the specification's
described allocator returns `"ORD001"`. -/
theorem next_order_id_cex :
    next_order_id [oC5] = str "ORD008"
    ∧ specNextOrderId [oC5] = str "ORD001"
    ∧ next_order_id [oC5] ≠ specNextOrderId [oC5] := by
  have hmax : maxOrdNum [oC5] = 7 := by decide
  have hspec : specMaxNum [oC5] = 0 := by decide
  have h1 : next_order_id [oC5] = str "ORD008" := by
    rw [next_order_id, hmax, show ((7 : ℤ) + 1).toNat = 8 from rfl,
      pad3_small (by norm_num)]
    decide
  have h2 : specNextOrderId [oC5] = str "ORD001" := by
    rw [specNextOrderId, hspec, pad3_one]
    decide
  exact ⟨h1, h2, by rw [h1, h2]; decide⟩

theorem next_order_id_fresh_monotone_witness :
    oW5.id ≠ next_order_id [oW5]
    ∧ ((digitsVal (str "024") : ℤ) < maxOrdNum [oW5] + 1) := by
  constructor
  · exact (next_order_id_fresh_monotone [oW5]).1 oW5 (by simp)
  · exact (next_order_id_fresh_monotone [oW5]).2.1 oW5 (by simp) (str "024")
      (by decide) (by decide) (by decide)

/-- C9: the per-file lock of `data_manager` serializes only individual
`load`/`save` calls, not read-modify-write sequences, so the claimed
mutual exclusion fails: in the interleaving where the execution task
performs its loads, a `cancel_order` then runs to completion (observing
`status == "open"` and returning success), and the execution task then
commits from its stale snapshots, the cancel's write is overwritten — the
order ends `executed`, a success notification is emitted and the ledger is
debited, even though the cancellation had won the race and committed
first. -/
theorem cancel_execute_race :
    raceCancelExecute sC9 (str "ORD001") (str "C") (str "E") =
      (CancelResult.cancelled, some (sC9x, [ExecNote.execOk (str "ORD001")]))
    ∧ findOrder sC9x.orders (str "ORD001") =
        some { oC9 with status := str "executed", executed_at := some (str "E") }
    ∧ sC9x.balances.cash = sC9.balances.cash - oC9.total := by
  have hcancel : cancel_order sC9 (str "ORD001") (str "C") =
      (CancelResult.cancelled,
        ⟨[{ oC9 with status := str "cancelled", cancelled_at := some (str "C") }],
          [], ⟨1000, 0, 1000, str "T"⟩⟩) := by
    decide
  refine ⟨?_, by simp [findOrder, sC9x, oC9], by norm_num [sC9x, sC9, oC9]⟩
  rw [raceCancelExecute, hcancel]
  show (CancelResult.cancelled, execFromSnapshot _ sC9.orders sC9.balances
    sC9.positions (str "ORD001") (str "E")) = _
  rw [exec_buy_fresh_eq _ sC9.orders sC9.balances sC9.positions
    (str "ORD001") (str "E") oC9 (by decide) (by decide) (by decide)
    (by norm_num [oC9, sC9]) (by decide)]
  simp only [sC9, sC9x, oC9, commitExecution, nonCashSum, updateOrder,
    updateFirst, markExecuted]
  norm_num [rnd, rhe]

theorem rhe_nonpos {y : ℚ} (h : y ≤ 0) : rhe y ≤ 0 := by
  have hfl : (⌊y⌋ : ℚ) ≤ y := Int.floor_le y
  simp only [rhe]
  split_ifs with h1 h2 h3
  · exact Int.floor_nonpos h
  · have hq : (⌊y⌋ : ℚ) < 0 := by linarith
    have : ⌊y⌋ < 0 := by exact_mod_cast hq
    omega
  · exact Int.floor_nonpos h
  · have hr : y - (⌊y⌋ : ℚ) = 1/2 := le_antisymm (not_lt.mp h2) (not_lt.mp h1)
    have hq : (⌊y⌋ : ℚ) < 0 := by linarith
    have : ⌊y⌋ < 0 := by exact_mod_cast hq
    omega

theorem rnd_nonpos {n : ℕ} {x : ℚ} (h : x ≤ 0) : rnd n x ≤ 0 := by
  have h1 : rhe (x * 10 ^ n) ≤ 0 :=
    rhe_nonpos (mul_nonpos_iff.mpr (Or.inr ⟨h, by positivity⟩))
  have h2 : ((rhe (x * 10 ^ n) : ℚ)) ≤ 0 := by exact_mod_cast h1
  have h3 : (0 : ℚ) < 10 ^ n := by positivity
  exact div_nonpos_of_nonpos_of_nonneg h2 (le_of_lt h3)

/-- The full behaviour of `buy` followed by execution for a non-positive
quantity on a symbol with no current position: no validation rejects it. -/
theorem buy_nonpos_exec (s : LedgerState) (symbol : Str) (quantity price : ℚ)
    (now now2 : Str) (hq : quantity ≤ 0) (hp : 0 ≤ price)
    (hcash : 0 ≤ s.balances.cash) (hc2 : IsDec 2 s.balances.cash)
    (hfresh : findPos s.positions (upperStr symbol) = none) :
    rnd 2 (price * quantity) ≤ 0
    ∧ (buy s symbol quantity (some price) now).1 =
        BuyResult.placed (next_order_id s.orders)
    ∧ ∃ s2 notes,
        _execute_order (buy s symbol quantity (some price) now).2
          (next_order_id s.orders) now2 = some (s2, notes)
        ∧ s2.balances.cash = s.balances.cash - rnd 2 (price * quantity)
        ∧ (rnd 2 (price * quantity) < 0 →
            s.balances.cash < s2.balances.cash) := by
  have htot : rnd 2 (price * quantity) ≤ 0 :=
    rnd_nonpos (mul_nonpos_iff.mpr (Or.inl ⟨hp, hq⟩))
  have hnc : ¬(rnd 2 (price * quantity) > s.balances.cash) :=
    not_lt.mpr (le_trans htot hcash)
  have hbuyeq : buy s symbol quantity (some price) now =
      (BuyResult.placed (next_order_id s.orders),
        { s with orders := s.orders ++
          [mkBuyOrder (next_order_id s.orders) (upperStr symbol) quantity price
            (rnd 2 (price * quantity)) now] }) := by
    simp only [buy, if_neg hnc]
  refine ⟨htot, by rw [hbuyeq], ?_⟩
  rw [hbuyeq]
  have hfind : findOrder
      (s.orders ++ [mkBuyOrder (next_order_id s.orders) (upperStr symbol)
        quantity price (rnd 2 (price * quantity)) now])
      (next_order_id s.orders) =
      some (mkBuyOrder (next_order_id s.orders) (upperStr symbol) quantity price
        (rnd 2 (price * quantity)) now) := by
    rw [findOrder, List.find?_append,
      List.find?_eq_none.mpr (fun o ho => by
        simpa using next_order_id_fresh ho),
      Option.none_or, List.find?_cons_of_pos _ (by simp [mkBuyOrder])]
  have hexeq := exec_buy_fresh_eq
    { s with orders := s.orders ++
      [mkBuyOrder (next_order_id s.orders) (upperStr symbol) quantity price
        (rnd 2 (price * quantity)) now] }
    (s.orders ++ [mkBuyOrder (next_order_id s.orders) (upperStr symbol)
      quantity price (rnd 2 (price * quantity)) now])
    s.balances s.positions (next_order_id s.orders) now2
    (mkBuyOrder (next_order_id s.orders) (upperStr symbol) quantity price
      (rnd 2 (price * quantity)) now)
    hfind rfl rfl hnc hfresh
  have hcash2 : rnd 2 (s.balances.cash - rnd 2 (price * quantity)) =
      s.balances.cash - rnd 2 (price * quantity) :=
    rnd_eq_self (hc2.sub (isDec_rnd 2 (price * quantity)))
  refine ⟨_, _, hexeq, ?_, ?_⟩
  · exact hcash2
  · intro hlt
    show s.balances.cash < rnd 2 (s.balances.cash - rnd 2 (price * quantity))
    rw [hcash2]
    linarith

/-- C10 (amended): `buy` performs no validation that the quantity is
positive: for a quantity ≤ 0 (price available and nonnegative, cash ≥ 0,
no current position in the symbol), placement succeeds with an open order
of total `round(price*quantity, 2) ≤ 0`, a later execution passes the cash
re-check and debits that non-positive total — strictly increasing cash
when the rounded total is negative.  (For tiny negative quantities the
total rounds to exactly 0 and cash stays unchanged, so the increase is not
strict for every negative quantity: see the counterexample.) -/
theorem buy_nonpositive_quantity (s : LedgerState) (symbol : Str)
    (quantity price : ℚ) (now now2 : Str) (hq : quantity ≤ 0) (hp : 0 ≤ price)
    (hcash : 0 ≤ s.balances.cash) (hc2 : IsDec 2 s.balances.cash)
    (hfresh : findPos s.positions (upperStr symbol) = none) :
    rnd 2 (price * quantity) ≤ 0
    ∧ (buy s symbol quantity (some price) now).1 =
        BuyResult.placed (next_order_id s.orders)
    ∧ ∃ s2 notes,
        _execute_order (buy s symbol quantity (some price) now).2
          (next_order_id s.orders) now2 = some (s2, notes)
        ∧ s2.balances.cash = s.balances.cash - rnd 2 (price * quantity)
        ∧ (rnd 2 (price * quantity) < 0 →
            s.balances.cash < s2.balances.cash) :=
  buy_nonpos_exec s symbol quantity price now now2 hq hp hcash hc2 hfresh

/-- C10 counterexample: quantity `-0.001` is strictly negative, placement
and execution both succeed, yet cash does not strictly increase — the
total `round(1 · (-0.001), 2)` is exactly `0`, so cash is unchanged. -/
theorem buy_nonpositive_quantity_cex :
    (-1/1000 : ℚ) < 0
    ∧ (buy sC10 (str "ZZZ") (-1/1000) (some 1) (str "T")).1 =
        BuyResult.placed (str "ORD001")
    ∧ ∃ s2 notes,
        _execute_order (buy sC10 (str "ZZZ") (-1/1000) (some 1) (str "T")).2
          (str "ORD001") (str "U") = some (s2, notes)
        ∧ s2.balances.cash = sC10.balances.cash := by
  have h := buy_nonpos_exec sC10 (str "ZZZ") (-1/1000) 1 (str "T") (str "U")
    (by norm_num) (by norm_num) (by norm_num [sC10]) ⟨10000, by norm_num [sC10]⟩
    (by simp [findPos, sC10])
  obtain ⟨-, hplaced, s2, notes, hex, hcash, -⟩ := h
  have htot : rnd 2 ((1 : ℚ) * (-1/1000)) = 0 := by
    norm_num [rnd, rhe]
  have hnid : next_order_id sC10.orders = str "ORD001" := by
    rw [show sC10.orders = ([] : List Order) from rfl, next_order_id_nil]
  refine ⟨by norm_num, ?_, s2, notes, ?_, ?_⟩
  · rw [hplaced, hnid]
  · rw [← hnid]
    exact hex
  · rw [hcash, htot, sC10]
    norm_num

theorem buy_nonpositive_quantity_witness :
    ∃ s2 notes,
      _execute_order (buy sC10 (str "YYY") (-2) (some 3) (str "T")).2
        (next_order_id sC10.orders) (str "U") = some (s2, notes)
      ∧ s2.balances.cash = sC10.balances.cash - rnd 2 ((3 : ℚ) * (-2))
      ∧ sC10.balances.cash < s2.balances.cash := by
  have h := buy_nonpositive_quantity sC10 (str "YYY") (-2) 3 (str "T") (str "U")
    (by norm_num) (by norm_num) (by norm_num [sC10]) ⟨10000, by norm_num [sC10]⟩
    (by simp [findPos, sC10])
  obtain ⟨-, -, s2, notes, hex, hcash, hstrict⟩ := h
  exact ⟨s2, notes, hex, hcash, hstrict (by norm_num [rnd, rhe])⟩
